import Mathlib

set_option maxRecDepth 40000

/-!
Verification development for the `Reactive` dependency-tracking engine
(`src/Reactive.ts` of Shyked/reactive).

The engine is shallowly embedded: paths and the reversed-dependency trie are
translated directly, and the store/tick machinery (`_propAccessed`,
`_propEdited`, `_dispatchWorks`, `_dispatchWork`, `defineProp`,
`defineComputed`, `defineWork`, `defineSharedProp`, `destroy`, the object
proxy's `set` trap) is given as an executable, fuel-indexed interpreter over
a deep embedding of Work handler bodies.  JavaScript object records are
modelled as association lists over string keys (JavaScript coerces numeric
keys to strings and the engine rejects symbol keys), object identity is
modelled conservatively (two object values are never strictly equal, matching
the fresh-literal writes exercised here), and every handler invocation and
every `_propEdited` call is recorded in an event log so that re-runs and
emissions are observable.
-/

/-- Property keys.  The source's `PropName` is `string | number | symbol`;
JavaScript coerces numeric object keys to strings and `defineProp` rejects
symbols, so keys are modelled as strings. -/
abbrev PropKey := String

/-- `PropPath` from the source: an ordered list of keys. -/
abbrev PropPath := List PropKey

/-- Association-list lookup, modelling JavaScript record indexing. -/
def alGet {κ α : Type} [DecidableEq κ] (l : List (κ × α)) (k : κ) : Option α :=
  match l with
  | [] => none
  | (k', v) :: rest => if k' = k then some v else alGet rest k

/-- Association-list update, modelling JavaScript record assignment: an
existing key is overwritten in place, a new key is appended (JavaScript
insertion order). -/
def alSet {κ α : Type} [DecidableEq κ] (l : List (κ × α)) (k : κ) (v : α) :
    List (κ × α) :=
  match l with
  | [] => [(k, v)]
  | (k', v') :: rest => if k' = k then (k, v) :: rest else (k', v') :: alSet rest k v

theorem alGet_alSet {κ α : Type} [DecidableEq κ] (l : List (κ × α)) (k k' : κ) (v : α) :
    alGet (alSet l k v) k' = if k = k' then some v else alGet l k' := by
  induction l with
  | nil =>
    simp only [alSet, alGet]
  | cons hd tl ih =>
    obtain ⟨hk, hv⟩ := hd
    by_cases h1 : hk = k
    · subst h1
      by_cases h2 : hk = k'
      · subst h2
        simp [alSet, alGet]
      · simp [alSet, alGet, h2]
    · by_cases h2 : hk = k'
      · subst h2
        have h3 : ¬(k = hk) := fun h => h1 h.symm
        simp [alSet, alGet, h1, h3]
      · simp [alSet, alGet, h1, h2, ih]

theorem alGet_alSet_same {κ α : Type} [DecidableEq κ] (l : List (κ × α)) (k : κ) (v : α) :
    alGet (alSet l k v) k = some v := by
  rw [alGet_alSet, if_pos rfl]

theorem alGet_alSet_ne {κ α : Type} [DecidableEq κ] (l : List (κ × α)) (k k' : κ) (v : α)
    (h : k ≠ k') : alGet (alSet l k v) k' = alGet l k' := by
  rw [alGet_alSet, if_neg h]

/-- Structural path equality: the inner loop of `Reactive._propPathExistsIn`
(same length, pairwise-identical keys). -/
def arraysAreEqual (needle item : PropPath) : Bool :=
  needle.length == item.length &&
    (List.zip needle item).all (fun kv => kv.1 == kv.2)

/-- `Reactive._propPathExistsIn`: membership of a path in a path list up to
structural equality. -/
def propPathExistsIn (needle : PropPath) (haystack : List PropPath) : Bool :=
  haystack.any (fun item => arraysAreEqual needle item)

theorem arraysAreEqual_iff (a b : PropPath) : arraysAreEqual a b = true ↔ a = b := by
  induction a generalizing b with
  | nil =>
    cases b with
    | nil => simp [arraysAreEqual]
    | cons hb tb => simp [arraysAreEqual]
  | cons ha ta ih =>
    cases b with
    | nil => simp [arraysAreEqual]
    | cons hb tb =>
      constructor
      · intro h
        simp only [arraysAreEqual, List.length_cons, List.zip_cons_cons, List.all_cons,
          Bool.and_eq_true, beq_iff_eq] at h
        obtain ⟨hlen, hhd, htl⟩ := h
        have hta : arraysAreEqual ta tb = true := by
          simp only [arraysAreEqual, Bool.and_eq_true, beq_iff_eq]
          exact ⟨by omega, htl⟩
        simp [hhd, (ih tb).mp hta]
      · intro h
        obtain ⟨h1, h2⟩ : ha = hb ∧ ta = tb := by
          injection h with h1 h2
          exact ⟨h1, h2⟩
        subst h1
        subst h2
        have hta := (ih ta).mpr rfl
        simp only [arraysAreEqual, Bool.and_eq_true, beq_iff_eq] at hta
        simp [arraysAreEqual, hta.2]

theorem propPathExistsIn_iff (p : PropPath) (l : List PropPath) :
    propPathExistsIn p l = true ↔ p ∈ l := by
  simp only [propPathExistsIn, List.any_eq_true]
  constructor
  · rintro ⟨x, hx, heq⟩
    rwa [(arraysAreEqual_iff p x).mp heq]
  · intro hp
    exact ⟨p, hp, (arraysAreEqual_iff p p).mpr rfl⟩

theorem propPathExistsIn_eq_false_iff (p : PropPath) (l : List PropPath) :
    propPathExistsIn p l = false ↔ p ∉ l := by
  constructor
  · intro h hmem
    have := (propPathExistsIn_iff p l).mpr hmem
    rw [h] at this
    exact Bool.noConfusion this
  · intro h
    cases hb : propPathExistsIn p l with
    | false => rfl
    | true => exact absurd ((propPathExistsIn_iff p l).mp hb) h

/-- JavaScript values stored in Props and Computeds.  Plain objects and
arrays are both field lists (array indices being the string keys "0", "1",
...); numbers are restricted to naturals, which covers the engine's
scenarios. -/
inductive Value : Type where
  | undefined : Value
  | null : Value
  | bool : Bool → Value
  | num : Nat → Value
  | str : String → Value
  | obj : List (PropKey × Value) → Value

/-- JavaScript strict equality `===` as used by the setters' change checks.
Primitives compare by value; two object values are modelled as never equal,
matching assignments of freshly constructed literals (the engine's setters
see a new reference on every object write). -/
def jsStrictEq : Value → Value → Bool
  | .undefined, .undefined => true
  | .null, .null => true
  | .bool a, .bool b => a == b
  | .num a, .num b => a == b
  | .str a, .str b => a == b
  | _, _ => false

/-- JavaScript truthiness. -/
def Value.truthy : Value → Bool
  | .undefined => false
  | .null => false
  | .bool b => b
  | .num n => n != 0
  | .str s => s != ""
  | .obj _ => true

/-- `typeof v !== 'undefined'` is `!v.isUndefined`. -/
def Value.isUndefined : Value → Bool
  | .undefined => true
  | _ => false

/-- Numeric addition (`undefined` outside numbers, which no scenario hits). -/
def Value.addV : Value → Value → Value
  | .num a, .num b => .num (a + b)
  | _, _ => .undefined

/-- `Math.min` on numbers. -/
def Value.minV : Value → Value → Value
  | .num a, .num b => .num (Nat.min a b)
  | _, _ => .undefined

/-- Deep embedding of the expressions appearing in Work/Computed handler
bodies: literals, Prop reads through the observed namespace, Computed reads
through the computed namespace, short-circuit `&&`, `+`, `Math.min`. -/
inductive HExpr : Type where
  | lit (v : Value)
  | readProp (path : PropPath)
  | readComputed (name : PropKey)
  | andE (a b : HExpr)
  | addE (a b : HExpr)
  | minE (a b : HExpr)

/-- Deep embedding of handler statements: Prop assignment, an emission
side effect (observable in the event log), an expression evaluated for its
read effects, and `if`. -/
inductive HStmt : Type where
  | writeProp (path : PropPath) (e : HExpr)
  | emitS (s : String)
  | exprS (e : HExpr)
  | iteS (c : HExpr) (thn els : List HStmt)

/-- The three handler shapes the engine installs: a user Work body
(`defineWork`), the Computed backing work `this._computeds[name] =
handler(prop, computed)` (`defineComputed`), and the shared-Prop copy work
`this._props[targetPropName] = sourceReactive.prop[sourcePropName]`
(`defineSharedProp`, running on the source store). -/
inductive Handler : Type where
  | prog (stmts : List HStmt)
  | computeStore (name : PropKey) (e : HExpr)
  | copyShared (targetStore : Nat) (targetProp sourceProp : PropKey)

/-- The `Work` class: identity (JavaScript object identity, modelled by a
unique id), handler, and the mutable declared-dependency list. -/
structure RWork where
  id : Nat
  handler : Handler
  deps : List PropPath

/-- One node of `ReversedDependenciesStructure`: the Works declared on
exactly this path, and the sub-record for longer paths. -/
inductive RevNode : Type where
  | mk (works : List Nat) (children : List (PropKey × RevNode)) : RevNode

def RevNode.works : RevNode → List Nat
  | .mk w _ => w

def RevNode.children : RevNode → List (PropKey × RevNode)
  | .mk _ c => c

/-- `ReversedDependenciesStructure`: a record from first key to node. -/
abbrev RevStruct := List (PropKey × RevNode)

/-- `ReversedDependencies._recursiveGet`.  The source first tests
`!structure[path[0]]` (false for the empty path, whose `path[0]` is
`undefined`, so an empty path yields `[]`), then returns the node's Works
for a one-key path and recurses into the sub-record otherwise. -/
def recursiveGet (structure' : RevStruct) (path : PropPath) : List Nat :=
  match path with
  | [] => []
  | [k] =>
    match alGet structure' k with
    | none => []
    | some node => node.works
  | k :: rest =>
    match alGet structure' k with
    | none => []
    | some node => recursiveGet node.children rest

/-- `ReversedDependencies._recursiveAdd`: a no-op on the empty path,
otherwise materialises the node for the first key (fresh nodes start with no
Works and no children) and pushes the Work at the last key's node. -/
def recursiveAdd (structure' : RevStruct) (path : PropPath) (work : Nat) : RevStruct :=
  match path with
  | [] => structure'
  | [k] =>
    alSet structure' k
      (.mk (((alGet structure' k).getD (.mk [] [])).works ++ [work])
        ((alGet structure' k).getD (.mk [] [])).children)
  | k :: rest =>
    alSet structure' k
      (.mk ((alGet structure' k).getD (.mk [] [])).works
        (recursiveAdd ((alGet structure' k).getD (.mk [] [])).children rest work))

/-- `Reactive._getReversedWorksDependencies`: fold every registered Work's
current dependency list into a fresh trie. -/
def getReversedWorksDependencies (works : List RWork) : RevStruct :=
  works.foldl (fun t w => w.deps.foldl (fun t' d => recursiveAdd t' d w.id) t) []

theorem recursiveGet_nil_struct (p : PropPath) : recursiveGet [] p = [] := by
  cases p with
  | nil => rfl
  | cons k rest =>
    cases rest with
    | nil => simp [recursiveGet, alGet]
    | cons r rs => simp [recursiveGet, alGet]

theorem recursiveGet_single (t : RevStruct) (k : PropKey) :
    recursiveGet t [k] = ((alGet t k).getD (.mk [] [])).works := by
  cases hg : alGet t k with
  | none => simp [recursiveGet, hg, RevNode.works]
  | some node => simp [recursiveGet, hg]

theorem recursiveGet_cons_cons (t : RevStruct) (k ph : PropKey) (pt : List PropKey) :
    recursiveGet t (k :: ph :: pt) =
      recursiveGet ((alGet t k).getD (.mk [] [])).children (ph :: pt) := by
  cases hg : alGet t k with
  | none => simp [recursiveGet, hg, RevNode.children, recursiveGet_nil_struct]
  | some node => simp [recursiveGet, hg]

theorem recursiveGet_alSet_ne (t : RevStruct) (k j : PropKey) (node : RevNode)
    (pr : List PropKey) (h : k ≠ j) :
    recursiveGet (alSet t k node) (j :: pr) = recursiveGet t (j :: pr) := by
  cases pr with
  | nil => rw [recursiveGet_single, recursiveGet_single, alGet_alSet_ne _ _ _ _ h]
  | cons ph pt =>
    rw [recursiveGet_cons_cons, recursiveGet_cons_cons, alGet_alSet_ne _ _ _ _ h]

/-- Key trie lemma: adding `(d, i)` appends `i` exactly at the node of the
(nonempty) path `d` and changes no other lookup. -/
theorem recursiveGet_recursiveAdd (d : PropPath) (t : RevStruct) (p : PropPath) (i : Nat) :
    recursiveGet (recursiveAdd t d i) p =
      if d = p ∧ d ≠ [] then recursiveGet t p ++ [i] else recursiveGet t p := by
  induction d generalizing t p with
  | nil =>
    simp [recursiveAdd]
  | cons k dr ih =>
    cases p with
    | nil =>
      rw [if_neg (by simp)]
      rfl
    | cons j pr =>
      by_cases hkj : k = j
      · subst hkj
        cases dr with
        | nil =>
          cases pr with
          | nil =>
            rw [if_pos ⟨rfl, by simp⟩]
            simp only [recursiveAdd, recursiveGet_single, alGet_alSet_same,
              Option.getD_some, RevNode.works]
          | cons ph pt =>
            rw [if_neg (by simp)]
            simp only [recursiveAdd, recursiveGet_cons_cons, alGet_alSet_same,
              Option.getD_some, RevNode.children]
        | cons dh dt =>
          cases pr with
          | nil =>
            rw [if_neg (by simp)]
            simp only [recursiveAdd, recursiveGet_single, alGet_alSet_same,
              Option.getD_some, RevNode.works]
          | cons ph pt =>
            simp only [recursiveAdd, recursiveGet_cons_cons, alGet_alSet_same,
              Option.getD_some, RevNode.children]
            rw [ih]
            by_cases hc : (dh : PropKey) :: dt = ph :: pt
            · rw [if_pos ⟨hc, by simp⟩, if_pos ⟨by rw [hc], by simp⟩]
            · rw [if_neg (fun hand => hc hand.1),
                if_neg (fun hand => hc (List.cons.inj hand.1).2)]
      · rw [if_neg (fun hand => hkj (List.cons.inj hand.1).1)]
        cases dr with
        | nil =>
          simp only [recursiveAdd]
          rw [recursiveGet_alSet_ne _ _ _ _ _ hkj]
        | cons dh dt =>
          simp only [recursiveAdd]
          rw [recursiveGet_alSet_ne _ _ _ _ _ hkj]

theorem count_foldl_deps (deps : List PropPath) (t : RevStruct) (i j : Nat)
    (p : PropPath) (hp : p ≠ []) :
    ((recursiveGet (deps.foldl (fun t' d => recursiveAdd t' d i) t) p).count j)
      = (recursiveGet t p).count j + (if i = j then deps.count p else 0) := by
  induction deps generalizing t with
  | nil =>
    simp
  | cons d ds ih =>
    simp only [List.foldl_cons]
    rw [ih, recursiveGet_recursiveAdd]
    have hsingle : List.count j [i] = if i = j then 1 else 0 := by
      by_cases hij : i = j
      · simp [hij]
      · simp [List.count_cons, hij]
    have hconscount : List.count p (d :: ds) = List.count p ds + if d = p then 1 else 0 := by
      by_cases hdp : d = p
      · simp [List.count_cons, hdp]
      · simp [List.count_cons, hdp]
    by_cases hdp : d = p
    · rw [if_pos ⟨hdp, by rw [hdp]; exact hp⟩, List.count_append, hsingle, hconscount,
        if_pos hdp]
      by_cases hij : i = j
      · simp only [if_pos hij]
        omega
      · simp only [if_neg hij]
    · rw [if_neg (fun hand => hdp hand.1), hconscount, if_neg hdp]
      by_cases hij : i = j
      · simp only [if_pos hij]
        omega
      · simp only [if_neg hij]

theorem count_foldl_works (works : List RWork) (t : RevStruct) (j : Nat)
    (p : PropPath) (hp : p ≠ []) :
    ((recursiveGet
        (works.foldl (fun t' w => w.deps.foldl (fun t'' d => recursiveAdd t'' d w.id) t') t)
        p).count j)
      = (recursiveGet t p).count j
        + (works.map (fun w => if w.id = j then w.deps.count p else 0)).sum := by
  induction works generalizing t with
  | nil =>
    simp
  | cons w ws ih =>
    simp only [List.foldl_cons, List.map_cons, List.sum_cons]
    rw [ih, count_foldl_deps _ _ _ _ _ hp]
    omega

theorem workContrib_sum (works : List RWork) (w : RWork) (p : PropPath)
    (hmem : w ∈ works) (hids : (works.map RWork.id).Nodup) :
    (works.map (fun w' => if w'.id = w.id then w'.deps.count p else 0)).sum
      = w.deps.count p := by
  induction works with
  | nil => cases hmem
  | cons hd tl ih =>
    have hids' : hd.id ∉ (tl.map RWork.id) ∧ (tl.map RWork.id).Nodup := by
      rw [List.map_cons] at hids
      exact List.nodup_cons.mp hids
    simp only [List.map_cons, List.sum_cons]
    rcases List.mem_cons.mp hmem with h | h
    · subst h
      rw [if_pos rfl]
      have hz : (tl.map (fun w' => if w'.id = w.id then w'.deps.count p else 0)).sum = 0 := by
        apply List.sum_eq_zero
        intro x hx
        obtain ⟨w', hw', rfl⟩ := List.mem_map.mp hx
        have hne : w'.id ≠ w.id := by
          intro heq
          exact hids'.1 (heq ▸ List.mem_map_of_mem RWork.id hw')
        rw [if_neg hne]
      omega
    · have hhd : hd.id ≠ w.id := by
        intro heq
        exact hids'.1 (by rw [heq]; exact List.mem_map_of_mem RWork.id h)
      rw [if_neg hhd, ih h hids'.2]
      omega

/-- Work-dispatch count per edited path: in the trie rebuilt from the current
Work registry, the Works list at a nonempty path `p` contains a given Work
exactly `deps.count p` times, where `deps` is that Work's declared set. -/
theorem count_getReversed (works : List RWork) (w : RWork) (p : PropPath)
    (hmem : w ∈ works) (hids : (works.map RWork.id).Nodup) (hp : p ≠ []) :
    (recursiveGet (getReversedWorksDependencies works) p).count w.id
      = w.deps.count p := by
  unfold getReversedWorksDependencies
  rw [count_foldl_works _ _ _ _ hp, recursiveGet_nil_struct, workContrib_sum works w p hmem hids]
  simp

/-- `Reactive._dispatchWork`'s dependency computation: paths accessed during
the execution minus any path edited during the same execution ("A Work
cannot be dependent of a property edited by itself"). -/
def computeDeps (accessedProps editedProps : List PropPath) : List PropPath :=
  accessedProps.filter (fun propPath => !propPathExistsIn propPath editedProps)

theorem computeDeps_not_mem_edited (accessedProps editedProps : List PropPath)
    (p : PropPath) (hp : p ∈ computeDeps accessedProps editedProps) :
    p ∉ editedProps := by
  have := List.of_mem_filter hp
  simp only [Bool.not_eq_true'] at this
  exact (propPathExistsIn_eq_false_iff p editedProps).mp this

/-- `Reactive._checkLoopInStack`'s maximum: the source tallies a counter per
distinct Work in the stack and takes the maximum tally; folding the maximum
of each occurrence's total count over all occurrences yields the same
number. -/
def maxWorkCount (stack : List Nat) : Nat :=
  stack.foldl (fun acc w => max acc (stack.count w)) 0

/-- `Reactive._checkLoopInStack`: `maxCount > 20`. -/
def checkLoopInStack (stack : List Nat) : Bool :=
  decide (20 < maxWorkCount stack)

theorem foldlMax_lt_iff (l : List Nat) (f : Nat → Nat) (acc n : Nat) :
    (n < l.foldl (fun a w => max a (f w)) acc) ↔ n < acc ∨ ∃ w ∈ l, n < f w := by
  induction l generalizing acc with
  | nil => simp
  | cons hd tl ih =>
    simp only [List.foldl_cons]
    rw [ih]
    constructor
    · rintro (h | ⟨w, hw, hfw⟩)
      · rcases lt_max_iff.mp h with h' | h'
        · exact Or.inl h'
        · exact Or.inr ⟨hd, List.mem_cons_self _ _, h'⟩
      · exact Or.inr ⟨w, List.mem_cons_of_mem _ hw, hfw⟩
    · rintro (h | ⟨w, hw, hfw⟩)
      · exact Or.inl (lt_max_iff.mpr (Or.inl h))
      · rcases List.mem_cons.mp hw with rfl | hw'
        · exact Or.inl (lt_max_iff.mpr (Or.inr hfw))
        · exact Or.inr ⟨w, hw', hfw⟩

theorem checkLoopInStack_iff (stack : List Nat) :
    checkLoopInStack stack = true ↔ ∃ w ∈ stack, 20 < stack.count w := by
  unfold checkLoopInStack maxWorkCount
  rw [decide_eq_true_iff, foldlMax_lt_iff]
  simp

/-- Events observable from outside the engine: every handler invocation
(a run of a Work's `_handler`, whether through `_dispatchWork` or through
the computed getter's direct `work.dispatch`), every emission a scenario
Work performs, and every `_propEdited` call (store id and path). -/
inductive Event : Type where
  | invoke (wid : Nat)
  | emit (s : String)
  | edit (sid : Nat) (path : PropPath)

/-- The per-store private state of a `Reactive` instance.  `accessors`
records which names carry a `defineProp`-installed namespace accessor
(`false`) or a `defineSharedProp`-installed read-only accessor (`true`);
`computedWorks` maps a Computed name to its backing Work's id;
`links` is `_linkedPropInvalidations`. -/
structure Store where
  props : List (PropKey × Value) := []
  accessors : List (PropKey × Bool) := []
  computeds : List (PropKey × Value) := []
  computedWorks : List (PropKey × Nat) := []
  works : List RWork := []
  tickRunning : Bool := false
  successiveStack : List Nat := []
  editedTick : List PropPath := []
  editedWork : List PropPath := []
  accessedWork : List PropPath := []
  links : List (PropKey × List (Nat × PropKey)) := []
  eventListeners : List Nat := []

/-- The world: all stores (keyed by an id, since cross-store links hold
references to other `Reactive` instances), the event log, a fresh-id counter
standing in for JavaScript object identity of Works, and the listeners
currently attached to external elements. -/
structure Machine where
  stores : List (Nat × Store) := []
  log : List Event := []
  nextId : Nat := 0
  attached : List Nat := []

def getStore (m : Machine) (sid : Nat) : Store :=
  (alGet m.stores sid).getD {}

def setStore (m : Machine) (sid : Nat) (st : Store) : Machine :=
  { m with stores := alSet m.stores sid st }

def updStore (m : Machine) (sid : Nat) (f : Store → Store) : Machine :=
  setStore m sid (f (getStore m sid))

/-- The synchronous errors the engine throws, plus fuel exhaustion of the
interpreter (which no scenario in this file reaches). -/
inductive RErr : Type where
  | propAlreadyDefined
  | computedAlreadyDefined
  | settingComputedNotAllowed
  | externalPropNotMutable
  | infiniteLoop
  | fuelOut
deriving DecidableEq

def findWork (ws : List RWork) (wid : Nat) : Option RWork :=
  ws.find? (fun w => w.id == wid)

/-- The object proxy's `set` trap (`Reactive._createObjectProxy`), iterated
along an assignment `obj[k1]...[kn] = v` below a Prop's top level.  Returns
the access path suffixes recorded by the intermediate proxy `get` traps (an
own-property check guards each one), and — unless the new value is strictly
equal to the stored one, in which case nothing happens — the updated object
together with the suffix handed to the mutate callback: the assigned key
normally, the empty (parent) suffix when the key was not previously an own
property. -/
def proxyAssign : Value → List PropKey → Value → (List PropPath × Option (Value × PropPath))
  | .obj fields, [k], v =>
    if jsStrictEq v ((alGet fields k).getD .undefined) then ([], none)
    else if (alGet fields k).isSome then ([], some (.obj (alSet fields k v), [k]))
    else ([], some (.obj (alSet fields k v), []))
  | .obj fields, k :: rest, v =>
    ((if (alGet fields k).isSome then [[k]] else []) ++
        (proxyAssign ((alGet fields k).getD .undefined) rest v).1.map (fun a => k :: a),
      (proxyAssign ((alGet fields k).getD .undefined) rest v).2.map
        (fun r => (Value.obj (alSet fields k r.1), k :: r.2)))
  | _, _, _ => ([], none)

/-- The call shapes of the engine's mutually recursive private machinery.
Each constructor corresponds to one source function or to one of its
`forEach` loops; the fuel-indexed interpreter below steps them all under a
shared call-depth bound, which keeps the embedding executable. -/
inductive Op : Type where
  | opPropAccessed (m : Machine) (sid : Nat) (path : PropPath)
  | opPropAccessedLinks (m : Machine) (entries : List (Nat × PropKey)) (tail : PropPath)
  | opPropEdited (m : Machine) (sid : Nat) (path : PropPath)
  | opPropEditedLinks (m : Machine) (entries : List (Nat × PropKey)) (tail : PropPath)
  | opDispatchWorks (m : Machine) (sid : Nat)
  | opDispatchInvalidated (m : Machine) (sid : Nat) (reversed : RevStruct)
      (invalidated : List PropPath)
  | opDispatchWids (m : Machine) (sid : Nat) (wids : List Nat)
  | opDispatchWork (m : Machine) (sid : Nat) (wid : Nat)
  | opRunHandler (m : Machine) (sid : Nat) (wid : Nat) (h : Handler)
  | opRunStmts (m : Machine) (sid : Nat) (stmts : List HStmt)
  | opRunStmt (m : Machine) (sid : Nat) (s : HStmt)
  | opEvalExpr (m : Machine) (sid : Nat) (e : HExpr)
  | opReadProp (m : Machine) (sid : Nat) (path : PropPath)
  | opReadChain (m : Machine) (sid : Nat) (pre : PropPath) (v : Value) (rest : PropPath)
  | opReadComputed (m : Machine) (sid : Nat) (name : PropKey)
  | opGetDeepList (m : Machine) (sid : Nat) (paths : List PropPath)
  | opWriteProp (m : Machine) (sid : Nat) (path : PropPath) (v : Value)
  | opPropAccessedList (m : Machine) (sid : Nat) (paths : List PropPath)

/-- One unfolding of the engine machinery; `rec` interprets the nested calls
(one fuel step down).  Operations without a meaningful result value return
the machine paired with `undefined`.  Arm by arm:

* `opPropAccessed` — `Reactive._propAccessed`: record the path in the
  execution read buffer (deduplicated structurally), then forward the access
  through the cross-store links registered under the path's first key.
* `opPropEdited` — `Reactive._propEdited`: log the edit, push the path into
  the per-tick and per-execution write buffers (deduplicated structurally),
  start a tick when none is running, then forward the edit through the
  cross-store links registered under the path's first key.
* `opDispatchWorks` — `Reactive._dispatchWorks`, one full tick: mark the
  tick running, splice the edited-during-tick buffer into a frozen snapshot,
  rebuild the reversed dependencies from the current Work registry, throw
  the infinite-loop error when the successive-execution stack trips the
  threshold, dispatch the Works found at each snapshot path, then either
  recurse (edits accumulated during the pass) or clear the stack.
* `opDispatchWork` — `Reactive._dispatchWork`: clear the execution
  read/write buffers, run the handler, splice the buffers, replace the
  Work's declared dependencies by accessed-minus-edited, push the Work onto
  the successive-execution stack.
* `opRunHandler` — `Work.dispatch` (logged as an invocation): a user Work
  runs its statements; a Computed's backing work stores its expression's
  value into the internal `_computeds` slot; a shared Prop's copy work reads
  the source Prop through the source namespace (the calling context is the
  source store) and writes the target's internal slot directly.
* `opRunStmt` — one handler statement; for an assignment the right-hand
  side is evaluated and then written through the observed namespace (the
  deep writes exercised here have effect-free right-hand sides, so the
  swapped order relative to JavaScript's left-to-right member evaluation is
  unobservable).
* `opEvalExpr` — handler expressions, with JavaScript's short-circuit `&&`.
* `opReadProp` — a read `this.prop.name[k1]...[kn]`: the namespace
  accessor's getter records an access of `[name]` and returns the internal
  slot; each further step goes through the proxy `get` trap
  (`opReadChain`), which records the prefixed path when the key is an own
  property.  This is also `_getDeep` over the public namespace.
* `opReadComputed` — the getter installed by `defineComputed`: fetch the
  backing Work's currently-declared dependencies; when any of them is
  structurally present in the edited-during-tick buffer, re-run the Work's
  handler directly (`work.dispatch` — cache refresh only, no dependency
  replacement, no stack push); then deep-read every declared dependency
  through the public namespace (`opGetDeepList`) so that an enclosing Work
  picks up the Computed's Prop dependencies; finally return the internal
  `_computeds` slot.
* `opWriteProp` — assignment through the observed namespace: a one-key path
  hits the accessor setter installed by `defineProp` (no-op when the new
  value is strictly equal to the stored one, otherwise store and
  `_propEdited`) or by `defineSharedProp` (always throws); a deeper path
  first evaluates the member chain — the namespace getter records `[name]`,
  the intermediate proxy `get` traps record their prefixes — and then fires
  the proxy `set` trap (`proxyAssign`), whose mutate callback is
  `_propEdited` on the recorded suffix.  A name without any accessor is a
  plain, unobserved JavaScript property; no scenario writes one, and it is
  modelled as a no-op. -/
def interpStep (rec : Op → Except RErr (Machine × Value)) :
    Op → Except RErr (Machine × Value)
  | .opPropAccessed m sid path =>
    let st := getStore m sid
    let st' := if propPathExistsIn path st.accessedWork then st
      else { st with accessedWork := st.accessedWork ++ [path] }
    let m' := setStore m sid st'
    (match path with
     | [] => .ok (m', .undefined)
     | k :: tail => rec (.opPropAccessedLinks m' ((alGet st.links k).getD []) tail))
  | .opPropAccessedLinks m entries tail =>
    (match entries with
     | [] => .ok (m, .undefined)
     | (tid, tname) :: rest => do
       let r ← rec (.opPropAccessed m tid (tname :: tail))
       rec (.opPropAccessedLinks r.1 rest tail))
  | .opPropEdited m sid path =>
    let m1 : Machine := { m with log := m.log ++ [.edit sid path] }
    let st := getStore m1 sid
    let st1 := if propPathExistsIn path st.editedTick then st
      else { st with editedTick := st.editedTick ++ [path] }
    let st2 := if propPathExistsIn path st1.editedWork then st1
      else { st1 with editedWork := st1.editedWork ++ [path] }
    let m2 := setStore m1 sid st2
    (do
      let r3 ← if st2.tickRunning then pure (m2, Value.undefined) else rec (.opDispatchWorks m2 sid)
      match path with
      | [] => .ok (r3.1, Value.undefined)
      | k :: tail =>
        rec (.opPropEditedLinks r3.1 ((alGet (getStore r3.1 sid).links k).getD []) tail))
  | .opPropEditedLinks m entries tail =>
    (match entries with
     | [] => .ok (m, .undefined)
     | (tid, tname) :: rest => do
       let r ← rec (.opPropEdited m tid (tname :: tail))
       rec (.opPropEditedLinks r.1 rest tail))
  | .opDispatchWorks m sid =>
    let st := getStore m sid
    let invalidatedProps := st.editedTick
    let st1 := { st with tickRunning := true, editedTick := [] }
    let m1 := setStore m sid st1
    let reversed := getReversedWorksDependencies st1.works
    if checkLoopInStack st1.successiveStack then .error .infiniteLoop
    else do
      let r2 ← rec (.opDispatchInvalidated m1 sid reversed invalidatedProps)
      let m3 := updStore r2.1 sid (fun s => { s with tickRunning := false })
      if (getStore m3 sid).editedTick.isEmpty then
        .ok (updStore m3 sid (fun s => { s with successiveStack := [] }), .undefined)
      else rec (.opDispatchWorks m3 sid)
  | .opDispatchInvalidated m sid reversed invalidated =>
    (match invalidated with
     | [] => .ok (m, .undefined)
     | p :: rest => do
       let r ← rec (.opDispatchWids m sid (recursiveGet reversed p))
       rec (.opDispatchInvalidated r.1 sid reversed rest))
  | .opDispatchWids m sid wids =>
    (match wids with
     | [] => .ok (m, .undefined)
     | wid :: rest => do
       let r ← rec (.opDispatchWork m sid wid)
       rec (.opDispatchWids r.1 sid rest))
  | .opDispatchWork m sid wid =>
    (match findWork (getStore m sid).works wid with
     | none => .ok (m, .undefined)
     | some w => do
       let m1 := updStore m sid (fun s => { s with accessedWork := [], editedWork := [] })
       let r2 ← rec (.opRunHandler m1 sid wid w.handler)
       let st := getStore r2.1 sid
       let deps := computeDeps st.accessedWork st.editedWork
       let st1 := { st with
         accessedWork := []
         editedWork := []
         works := st.works.map (fun w' => if w'.id == wid then { w' with deps := deps } else w')
         successiveStack := st.successiveStack ++ [wid] }
       .ok (setStore r2.1 sid st1, .undefined))
  | .opRunHandler m sid wid h =>
    let m1 : Machine := { m with log := m.log ++ [.invoke wid] }
    (match h with
     | .prog stmts => rec (.opRunStmts m1 sid stmts)
     | .computeStore name e => do
       let r ← rec (.opEvalExpr m1 sid e)
       .ok (updStore r.1 sid (fun s => { s with computeds := alSet s.computeds name r.2 }),
         Value.undefined)
     | .copyShared tid tname sname => do
       let r ← rec (.opReadProp m1 sid [sname])
       .ok (updStore r.1 tid (fun s => { s with props := alSet s.props tname r.2 }),
         Value.undefined))
  | .opRunStmts m sid stmts =>
    (match stmts with
     | [] => .ok (m, .undefined)
     | s :: rest => do
       let r ← rec (.opRunStmt m sid s)
       rec (.opRunStmts r.1 sid rest))
  | .opRunStmt m sid s =>
    (match s with
     | .writeProp path e => do
       let r ← rec (.opEvalExpr m sid e)
       rec (.opWriteProp r.1 sid path r.2)
     | .emitS str => .ok ({ m with log := m.log ++ [.emit str] }, .undefined)
     | .exprS e => do
       let r ← rec (.opEvalExpr m sid e)
       .ok (r.1, Value.undefined)
     | .iteS c thn els => do
       let r ← rec (.opEvalExpr m sid c)
       if r.2.truthy then rec (.opRunStmts r.1 sid thn) else rec (.opRunStmts r.1 sid els))
  | .opEvalExpr m sid e =>
    (match e with
     | .lit v => .ok (m, v)
     | .readProp path => rec (.opReadProp m sid path)
     | .readComputed name => rec (.opReadComputed m sid name)
     | .andE a b => do
       let ra ← rec (.opEvalExpr m sid a)
       if ra.2.truthy then rec (.opEvalExpr ra.1 sid b) else .ok ra
     | .addE a b => do
       let ra ← rec (.opEvalExpr m sid a)
       let rb ← rec (.opEvalExpr ra.1 sid b)
       .ok (rb.1, ra.2.addV rb.2)
     | .minE a b => do
       let ra ← rec (.opEvalExpr m sid a)
       let rb ← rec (.opEvalExpr ra.1 sid b)
       .ok (rb.1, ra.2.minV rb.2))
  | .opReadProp m sid path =>
    (match path with
     | [] => .ok (m, .undefined)
     | name :: rest =>
       match alGet (getStore m sid).accessors name with
       | none => .ok (m, .undefined)
       | some _ => do
         let r ← rec (.opPropAccessed m sid [name])
         rec (.opReadChain r.1 sid [name]
           ((alGet (getStore r.1 sid).props name).getD .undefined) rest))
  | .opReadChain m sid pre v rest =>
    (match rest with
     | [] => .ok (m, v)
     | k :: rest' =>
       match v with
       | .obj fields =>
         (match alGet fields k with
          | some v' => do
            let r ← rec (.opPropAccessed m sid (pre ++ [k]))
            rec (.opReadChain r.1 sid (pre ++ [k]) v' rest')
          | none => rec (.opReadChain m sid (pre ++ [k]) .undefined rest'))
       | _ => .ok (m, .undefined))
  | .opReadComputed m sid name =>
    let st := getStore m sid
    (match alGet st.computedWorks name with
     | none => .ok (m, .undefined)
     | some wid =>
       match findWork st.works wid with
       | none => .ok (m, (alGet st.computeds name).getD .undefined)
       | some w => do
         let r1 ←
           if (w.deps.filter (fun d => propPathExistsIn d st.editedTick)).isEmpty
           then pure (m, Value.undefined)
           else rec (.opRunHandler m sid wid w.handler)
         let r2 ← rec (.opGetDeepList r1.1 sid w.deps)
         .ok (r2.1, (alGet (getStore r2.1 sid).computeds name).getD .undefined))
  | .opGetDeepList m sid paths =>
    (match paths with
     | [] => .ok (m, .undefined)
     | p :: rest => do
       let r ← rec (.opReadProp m sid p)
       rec (.opGetDeepList r.1 sid rest))
  | .opWriteProp m sid path v =>
    (match path with
     | [] => .ok (m, .undefined)
     | name :: rest =>
       match alGet (getStore m sid).accessors name with
       | none => .ok (m, .undefined)
       | some isShared =>
         match rest with
         | [] =>
           if isShared then .error .externalPropNotMutable
           else if jsStrictEq v ((alGet (getStore m sid).props name).getD .undefined) then
             .ok (m, .undefined)
           else do
             let m1 := updStore m sid (fun s => { s with props := alSet s.props name v })
             rec (.opPropEdited m1 sid [name])
         | _ :: _ => do
           let r1 ← rec (.opPropAccessed m sid [name])
           let pa := proxyAssign ((alGet (getStore r1.1 sid).props name).getD .undefined) rest v
           let r2 ← rec (.opPropAccessedList r1.1 sid (pa.1.map (fun a => name :: a)))
           match pa.2 with
           | none => .ok (r2.1, Value.undefined)
           | some upd => do
             let m3 := updStore r2.1 sid (fun s => { s with props := alSet s.props name upd.1 })
             rec (.opPropEdited m3 sid (name :: upd.2)))
  | .opPropAccessedList m sid paths =>
    (match paths with
     | [] => .ok (m, .undefined)
     | p :: rest => do
       let r ← rec (.opPropAccessed m sid p)
       rec (.opPropAccessedList r.1 sid rest))

/-- The fuel-indexed interpreter: a plain `Nat.rec` unrolling of
`interpStep`, with fuel exhaustion as an error no scenario here reaches.
Fuel bounds only the nesting depth of machinery calls. -/
def interp (fuel : Nat) : Op → Except RErr (Machine × Value) :=
  Nat.rec (motive := fun _ => Op → Except RErr (Machine × Value))
    (fun _ => .error .fuelOut) (fun _ ih => interpStep ih) fuel

theorem interp_zero (op : Op) : interp 0 op = .error .fuelOut := rfl

theorem interp_succ (f : Nat) (op : Op) : interp (f + 1) op = interpStep (interp f) op := rfl

/-- `Reactive._propAccessed` (entry point). -/
def propAccessed (fuel : Nat) (m : Machine) (sid : Nat) (path : PropPath) :
    Except RErr Machine :=
  (interp fuel (.opPropAccessed m sid path)).map Prod.fst

/-- `Reactive._propEdited` (entry point). -/
def propEdited (fuel : Nat) (m : Machine) (sid : Nat) (path : PropPath) :
    Except RErr Machine :=
  (interp fuel (.opPropEdited m sid path)).map Prod.fst

/-- `Reactive._dispatchWorks` (entry point). -/
def dispatchWorks (fuel : Nat) (m : Machine) (sid : Nat) : Except RErr Machine :=
  (interp fuel (.opDispatchWorks m sid)).map Prod.fst

/-- `Reactive._dispatchWork` (entry point). -/
def dispatchWork (fuel : Nat) (m : Machine) (sid : Nat) (wid : Nat) :
    Except RErr Machine :=
  (interp fuel (.opDispatchWork m sid wid)).map Prod.fst

/-- A read through the observed namespace (entry point). -/
def readPropM (fuel : Nat) (m : Machine) (sid : Nat) (path : PropPath) :
    Except RErr (Machine × Value) :=
  interp fuel (.opReadProp m sid path)

/-- A read through the computed namespace (entry point). -/
def readComputedM (fuel : Nat) (m : Machine) (sid : Nat) (name : PropKey) :
    Except RErr (Machine × Value) :=
  interp fuel (.opReadComputed m sid name)

/-- An assignment through the observed namespace (entry point). -/
def writePropM (fuel : Nat) (m : Machine) (sid : Nat) (path : PropPath) (v : Value) :
    Except RErr Machine :=
  (interp fuel (.opWriteProp m sid path v)).map Prod.fst

/-- `Reactive.defineProp` (the symbol-key branch cannot arise with string
keys): throws when the internal slot already holds a defined (non-undefined)
value, otherwise stores the initial value (an object value stands for its
observed wrapper) and installs the namespace accessor.  Definition performs
no dispatch and records no edit. -/
def defineProp (m : Machine) (sid : Nat) (name : PropKey) (v : Value) :
    Except RErr Machine :=
  if ((alGet (getStore m sid).props name).getD .undefined).isUndefined then
    .ok (updStore m sid (fun s => { s with
      props := alSet s.props name v
      accessors := alSet s.accessors name false }))
  else .error .propAlreadyDefined

/-- `Reactive.defineWork`: register the Work and dispatch it once. -/
def defineWork (fuel : Nat) (m : Machine) (sid : Nat) (stmts : List HStmt) :
    Except RErr Machine :=
  let wid := m.nextId
  let m1 : Machine := { m with nextId := wid + 1 }
  let m2 := updStore m1 sid (fun s => { s with works := s.works ++ [⟨wid, .prog stmts, []⟩] })
  dispatchWork fuel m2 sid wid

/-- `Reactive.defineComputed`: throws when the internal computed slot
already holds a defined value; registers the backing Work, installs the
computed accessor, and dispatches the backing Work once (establishing the
cache and the initial dependency set). -/
def defineComputed (fuel : Nat) (m : Machine) (sid : Nat) (name : PropKey) (e : HExpr) :
    Except RErr Machine :=
  if ((alGet (getStore m sid).computeds name).getD .undefined).isUndefined then
    let wid := m.nextId
    let m1 : Machine := { m with nextId := wid + 1 }
    let m2 := updStore m1 sid (fun s => { s with
      works := s.works ++ [⟨wid, .computeStore name e, []⟩]
      computedWorks := alSet s.computedWorks name wid })
    dispatchWork fuel m2 sid wid
  else .error .computedAlreadyDefined

/-- `Reactive.defineSharedProp`, called on the target store: throws when the
target slot is already defined; registers the copy Work on the source
store's registry, records the link entry on the source store, installs the
read-only accessor on the target namespace, and dispatches the copy Work on
the source store. -/
def defineSharedProp (fuel : Nat) (m : Machine) (targetSid sourceSid : Nat)
    (targetName sourceName : PropKey) : Except RErr Machine :=
  if ((alGet (getStore m targetSid).props targetName).getD .undefined).isUndefined then
    let wid := m.nextId
    let m1 : Machine := { m with nextId := wid + 1 }
    let m2 := updStore m1 sourceSid (fun s => { s with
      works := s.works ++ [⟨wid, .copyShared targetSid targetName sourceName, []⟩]
      links := alSet s.links sourceName
        (((alGet s.links sourceName).getD []) ++ [(targetSid, targetName)]) })
    let m3 := updStore m2 targetSid (fun s =>
      { s with accessors := alSet s.accessors targetName true })
    dispatchWork fuel m3 sourceSid wid
  else .error .propAlreadyDefined

/-- Assignment to an entry of the computed namespace: the accessor installed
by `defineComputed` is `set: () => throw`, unconditionally.  (A name with no
computed accessor would be a plain, unobserved JavaScript property; no
scenario assigns one.) -/
def writeComputedM (m : Machine) (sid : Nat) (name : PropKey) : Except RErr Machine :=
  match alGet (getStore m sid).computedWorks name with
  | some _ => .error .settingComputedNotAllowed
  | none => .ok m

/-- The `element.addEventListener` + `this._eventListeners.push` pair the
UI-binding collaborator (`defineFormProp`) performs per installed listener,
with a listener id standing in for the (element, eventName, handler)
triple. -/
def attachEventListener (m : Machine) (sid : Nat) (lid : Nat) : Machine :=
  let m1 := updStore m sid (fun s => { s with eventListeners := s.eventListeners ++ [lid] })
  { m1 with attached := m1.attached ++ [lid] }

/-- `Reactive.destroy`.  `Object.keys(this.prop)` enumerates nothing — the
accessor properties were installed with `Object.defineProperty`, hence
non-enumerable — so the public namespaces keep their accessors.  The
internal `_props` record, the Work registry, the successive-execution stack
and the three buffers are emptied, and each recorded event listener is
detached from its element.  The internal `_computeds` record, the computed
accessors, `_linkedPropInvalidations` and the `_eventListeners` array
itself are left untouched. -/
def destroy (m : Machine) (sid : Nat) : Machine :=
  let st := getStore m sid
  let st1 := { st with
    props := []
    works := []
    successiveStack := []
    editedTick := []
    editedWork := []
    accessedWork := [] }
  { m with
    stores := alSet m.stores sid st1
    attached := m.attached.filter (fun l => !(st.eventListeners.contains l)) }

theorem getStore_setStore_same (m : Machine) (sid : Nat) (st : Store) :
    getStore (setStore m sid st) sid = st := by
  simp [getStore, setStore, alGet_alSet_same]

theorem getStore_setStore_ne (m : Machine) (sid s : Nat) (st : Store) (h : sid ≠ s) :
    getStore (setStore m sid st) s = getStore m s := by
  simp [getStore, setStore, alGet_alSet_ne _ _ _ _ h]

/-- What a pure read-tracking step keeps intact: the event log and, for
every store, its Prop values and its Computed cache. -/
def accessKeeps (m m' : Machine) : Prop :=
  m'.log = m.log ∧
  ∀ s : Nat, (getStore m' s).props = (getStore m s).props ∧
    (getStore m' s).computeds = (getStore m s).computeds

theorem accessKeeps_refl (m : Machine) : accessKeeps m m :=
  ⟨rfl, fun _ => ⟨rfl, rfl⟩⟩

theorem accessKeeps_trans {a b c : Machine} (h1 : accessKeeps a b) (h2 : accessKeeps b c) :
    accessKeeps a c :=
  ⟨h2.1.trans h1.1, fun s =>
    ⟨((h2.2 s).1).trans ((h1.2 s).1), ((h2.2 s).2).trans ((h1.2 s).2)⟩⟩

theorem accessKeeps_setStore (m : Machine) (sid : Nat) (st : Store)
    (hp : st.props = (getStore m sid).props)
    (hc : st.computeds = (getStore m sid).computeds) :
    accessKeeps m (setStore m sid st) := by
  refine ⟨rfl, fun s => ?_⟩
  by_cases h : sid = s
  · subst h
    rw [getStore_setStore_same]
    exact ⟨hp, hc⟩
  · rw [getStore_setStore_ne _ _ _ _ h]
    exact ⟨rfl, rfl⟩

theorem except_bind_ok {α β : Type} (x : Except RErr α) (f : α → Except RErr β) (b : β)
    (h : (x >>= f) = .ok b) : ∃ a, x = .ok a ∧ f a = .ok b := by
  cases x with
  | error e => simp [Bind.bind, Except.bind] at h
  | ok a => exact ⟨a, rfl, by simpa [Bind.bind, Except.bind] using h⟩

/-- The machine argument carried by an operation. -/
def Op.machine : Op → Machine
  | .opPropAccessed m _ _ => m
  | .opPropAccessedLinks m _ _ => m
  | .opPropEdited m _ _ => m
  | .opPropEditedLinks m _ _ => m
  | .opDispatchWorks m _ => m
  | .opDispatchInvalidated m _ _ _ => m
  | .opDispatchWids m _ _ => m
  | .opDispatchWork m _ _ => m
  | .opRunHandler m _ _ _ => m
  | .opRunStmts m _ _ => m
  | .opRunStmt m _ _ => m
  | .opEvalExpr m _ _ => m
  | .opReadProp m _ _ => m
  | .opReadChain m _ _ _ _ => m
  | .opReadComputed m _ _ => m
  | .opGetDeepList m _ _ => m
  | .opWriteProp m _ _ _ => m
  | .opPropAccessedList m _ _ => m

/-- The pure read-tracking operations: access recording and namespace/proxy
reads.  They populate read buffers only. -/
def Op.readOnly : Op → Prop
  | .opPropAccessed _ _ _ => True
  | .opPropAccessedLinks _ _ _ => True
  | .opReadProp _ _ _ => True
  | .opReadChain _ _ _ _ _ => True
  | .opGetDeepList _ _ _ => True
  | .opPropAccessedList _ _ _ => True
  | _ => False

/-- Read-tracking operations leave the log and every store's Prop values and
Computed cache unchanged. -/
theorem interp_readOnly_keeps :
    ∀ fuel : Nat, ∀ op : Op, op.readOnly → ∀ r : Machine × Value,
      interp fuel op = .ok r → accessKeeps op.machine r.1 := by
  intro fuel
  induction fuel with
  | zero =>
    intro op _ r h
    rw [interp_zero] at h
    exact absurd h (by simp)
  | succ f ih =>
    intro op hro r hrun
    rw [interp_succ] at hrun
    cases op with
    | opPropAccessed m sid path =>
      simp only [interpStep] at hrun
      cases path with
      | nil =>
        rw [Except.ok.injEq] at hrun
        obtain rfl := hrun.symm
        simp only [Op.machine]
        apply accessKeeps_setStore
        · split
          · rfl
          · rfl
        · split
          · rfl
          · rfl
      | cons k tail =>
        have h1 := ih _ (by trivial) r hrun
        simp only [Op.machine] at h1 ⊢
        refine accessKeeps_trans ?_ h1
        apply accessKeeps_setStore
        · split
          · rfl
          · rfl
        · split
          · rfl
          · rfl
    | opPropAccessedLinks m entries tail =>
      simp only [interpStep] at hrun
      cases entries with
      | nil =>
        rw [Except.ok.injEq] at hrun
        obtain rfl := hrun.symm
        exact accessKeeps_refl m
      | cons hd rest =>
        obtain ⟨tid, tname⟩ := hd
        obtain ⟨a, ha, hb⟩ := except_bind_ok _ _ _ hrun
        have h1 := ih _ (by trivial) a ha
        have h2 := ih _ (by trivial) r hb
        simp only [Op.machine] at h1 h2 ⊢
        exact accessKeeps_trans h1 h2
    | opReadProp m sid path =>
      simp only [interpStep] at hrun
      cases path with
      | nil =>
        rw [Except.ok.injEq] at hrun
        obtain rfl := hrun.symm
        exact accessKeeps_refl m
      | cons name rest =>
        have hrun2 : (match alGet (getStore m sid).accessors name with
            | none => Except.ok (m, Value.undefined)
            | some _ => do
              let r1 ← interp f (Op.opPropAccessed m sid [name])
              interp f (Op.opReadChain r1.1 sid [name]
                ((alGet (getStore r1.1 sid).props name).getD Value.undefined) rest)) = .ok r := hrun
        cases hacc : alGet (getStore m sid).accessors name with
        | none =>
          rw [hacc] at hrun2
          simp only at hrun2
          rw [Except.ok.injEq] at hrun2
          obtain rfl := hrun2.symm
          exact accessKeeps_refl m
        | some b =>
          rw [hacc] at hrun2
          simp only at hrun2
          obtain ⟨a, ha, hb⟩ := except_bind_ok _ _ _ hrun2
          have h1 := ih _ (by trivial) a ha
          have h2 := ih _ (by trivial) r hb
          simp only [Op.machine] at h1 h2 ⊢
          exact accessKeeps_trans h1 h2
    | opReadChain m sid pre v rest =>
      simp only [interpStep] at hrun
      cases rest with
      | nil =>
        rw [Except.ok.injEq] at hrun
        obtain rfl := hrun.symm
        exact accessKeeps_refl m
      | cons k rest' =>
        cases v with
        | obj fields =>
          have hrun2 : (match alGet fields k with
              | some v' => do
                let r1 ← interp f (Op.opPropAccessed m sid (pre ++ [k]))
                interp f (Op.opReadChain r1.1 sid (pre ++ [k]) v' rest')
              | none =>
                interp f (Op.opReadChain m sid (pre ++ [k]) Value.undefined rest')) = .ok r := hrun
          cases hk : alGet fields k with
          | some v' =>
            rw [hk] at hrun2
            simp only at hrun2
            obtain ⟨a, ha, hb⟩ := except_bind_ok _ _ _ hrun2
            have h1 := ih _ (by trivial) a ha
            have h2 := ih _ (by trivial) r hb
            simp only [Op.machine] at h1 h2 ⊢
            exact accessKeeps_trans h1 h2
          | none =>
            rw [hk] at hrun2
            simp only at hrun2
            have h1 := ih _ (by trivial) r hrun2
            simpa only [Op.machine] using h1
        | undefined =>
          rw [Except.ok.injEq] at hrun
          obtain rfl := hrun.symm
          exact accessKeeps_refl m
        | null =>
          rw [Except.ok.injEq] at hrun
          obtain rfl := hrun.symm
          exact accessKeeps_refl m
        | bool b =>
          rw [Except.ok.injEq] at hrun
          obtain rfl := hrun.symm
          exact accessKeeps_refl m
        | num n =>
          rw [Except.ok.injEq] at hrun
          obtain rfl := hrun.symm
          exact accessKeeps_refl m
        | str s =>
          rw [Except.ok.injEq] at hrun
          obtain rfl := hrun.symm
          exact accessKeeps_refl m
    | opGetDeepList m sid paths =>
      simp only [interpStep] at hrun
      cases paths with
      | nil =>
        rw [Except.ok.injEq] at hrun
        obtain rfl := hrun.symm
        exact accessKeeps_refl m
      | cons p prest =>
        obtain ⟨a, ha, hb⟩ := except_bind_ok _ _ _ hrun
        have h1 := ih _ (by trivial) a ha
        have h2 := ih _ (by trivial) r hb
        simp only [Op.machine] at h1 h2 ⊢
        exact accessKeeps_trans h1 h2
    | opPropAccessedList m sid paths =>
      simp only [interpStep] at hrun
      cases paths with
      | nil =>
        rw [Except.ok.injEq] at hrun
        obtain rfl := hrun.symm
        exact accessKeeps_refl m
      | cons p prest =>
        obtain ⟨a, ha, hb⟩ := except_bind_ok _ _ _ hrun
        have h1 := ih _ (by trivial) a ha
        have h2 := ih _ (by trivial) r hb
        simp only [Op.machine] at h1 h2 ⊢
        exact accessKeeps_trans h1 h2
    | opPropEdited m sid path => simp [Op.readOnly] at hro
    | opPropEditedLinks m entries tail => simp [Op.readOnly] at hro
    | opDispatchWorks m sid => simp [Op.readOnly] at hro
    | opDispatchInvalidated m sid reversed invalidated => simp [Op.readOnly] at hro
    | opDispatchWids m sid wids => simp [Op.readOnly] at hro
    | opDispatchWork m sid wid => simp [Op.readOnly] at hro
    | opRunHandler m sid wid h => simp [Op.readOnly] at hro
    | opRunStmts m sid stmts => simp [Op.readOnly] at hro
    | opRunStmt m sid s => simp [Op.readOnly] at hro
    | opEvalExpr m sid e => simp [Op.readOnly] at hro
    | opReadComputed m sid name => simp [Op.readOnly] at hro
    | opWriteProp m sid path v => simp [Op.readOnly] at hro

/-- Call-depth budget for the concrete scenarios (each nested machinery call
costs one unit; the deepest scenario, the cascade-overflow run, stays well
below this). -/
def FUEL : Nat := 200

def isOkE {α : Type} (e : Except RErr α) : Bool :=
  match e with
  | .ok _ => true
  | .error _ => false

/-- Machine of a successful run (scenario extraction; the default is never
reached by the runs it is applied to). -/
def okD (e : Except RErr Machine) : Machine :=
  match e with
  | .ok m => m
  | .error _ => {}

/-- Number of invocations of a given Work's handler recorded in the log. -/
def countInvokes (wid : Nat) (log : List Event) : Nat :=
  log.countP (fun e => match e with
    | .invoke w => w == wid
    | _ => false)

/-- The emissions recorded in the log, in order. -/
def emittedEvents (log : List Event) : List String :=
  log.filterMap (fun e => match e with
    | .emit s => some s
    | _ => none)

/-- Number of `_propEdited` calls recorded for a given store and path. -/
def countEdits (sid : Nat) (p : PropPath) (log : List Event) : Nat :=
  log.countP (fun e => match e with
    | .edit s q => s == sid && q == p
    | _ => false)

/-- Number of `_propEdited` calls recorded for any store and path. -/
def totalEdits (log : List Event) : Nat :=
  log.countP (fun e => match e with
    | .edit _ _ => true
    | _ => false)

/-- True when the log invokes the given Work twice with no `_propEdited`
call anywhere in between — i.e. the second invocation happens although no
path at all (in particular no dependency path) was edited since the
previous invocation, which had refreshed the cache. -/
def hasRedundantInvoke (wid : Nat) : List Event → Bool → Bool
  | [], _ => false
  | e :: rest, armed =>
    match e with
    | .invoke w =>
      if w == wid then (if armed then true else hasRedundantInvoke wid rest true)
      else hasRedundantInvoke wid rest armed
    | .edit _ _ => hasRedundantInvoke wid rest false
    | _ => hasRedundantInvoke wid rest armed

/-- C1 scenario: Prop `list = [1, 2, 3]` (array indices are the string keys
"0", "1", "2"), one Work (id 0) reading `list[0]`. -/
def c1Setup : Except RErr Machine := do
  let m ← defineProp {} 1 "list" (.obj [("0", .num 1), ("1", .num 2), ("2", .num 3)])
  defineWork FUEL m 1 [.exprS (.readProp ["list", "0"])]

/-- C1 scenario after mutating `list[1]`. -/
def c1AfterOther : Except RErr Machine := do
  let m ← c1Setup
  writePropM FUEL m 1 ["list", "1"] (.num 9)

/-- C1 scenario after additionally mutating `list[0]`. -/
def c1AfterZero : Except RErr Machine := do
  let m ← c1AfterOther
  writePropM FUEL m 1 ["list", "0"] (.num 7)

/-- C2 scenario: `{red: false, blue: false}`, Computed
`multicolor = red && blue` (backing work id 0), Work (id 1) emitting
`"RAINBOW"` when `multicolor` is truthy. -/
def c2Setup : Except RErr Machine := do
  let m ← defineProp {} 1 "red" (.bool false)
  let m ← defineProp m 1 "blue" (.bool false)
  let m ← defineComputed FUEL m 1 "multicolor" (.andE (.readProp ["red"]) (.readProp ["blue"]))
  defineWork FUEL m 1 [.iteS (.readComputed "multicolor") [.emitS "RAINBOW"] []]

def c2AfterRed : Except RErr Machine := do
  let m ← c2Setup
  writePropM FUEL m 1 ["red"] (.bool true)

def c2AfterBlue : Except RErr Machine := do
  let m ← c2AfterRed
  writePropM FUEL m 1 ["blue"] (.bool true)

/-- C4 stabilizing feedback pair: once `go` is set, Work 0 writes
`p = min(q + 1, 5)` and Work 1 writes `q = p`; the ping-pong settles at
`p = q = 5` after well under 20 re-triggers of each Work. -/
def c4stableSetup : Except RErr Machine := do
  let m ← defineProp {} 1 "go" (.bool false)
  let m ← defineProp m 1 "p" (.num 0)
  let m ← defineProp m 1 "q" (.num 0)
  let m ← defineWork FUEL m 1
    [.iteS (.readProp ["go"])
      [.writeProp ["p"] (.minE (.addE (.readProp ["q"]) (.lit (.num 1))) (.lit (.num 5)))] []]
  defineWork FUEL m 1
    [.iteS (.readProp ["go"]) [.writeProp ["q"] (.readProp ["p"])] []]

def c4stableRun : Except RErr Machine := do
  let m ← c4stableSetup
  writePropM FUEL m 1 ["go"] (.bool true)

/-- C4 diverging feedback pair: Work 0 writes `p = q + 1`, Work 1 writes
`q = p + 1`; every re-trigger changes a value, so the cascade never
settles. -/
def c4loopSetup : Except RErr Machine := do
  let m ← defineProp {} 1 "go" (.bool false)
  let m ← defineProp m 1 "p" (.num 0)
  let m ← defineProp m 1 "q" (.num 0)
  let m ← defineWork FUEL m 1
    [.iteS (.readProp ["go"])
      [.writeProp ["p"] (.addE (.readProp ["q"]) (.lit (.num 1)))] []]
  defineWork FUEL m 1
    [.iteS (.readProp ["go"])
      [.writeProp ["q"] (.addE (.readProp ["p"]) (.lit (.num 1)))] []]

def c4loopRun : Except RErr Machine := do
  let m ← c4loopSetup
  writePropM FUEL m 1 ["go"] (.bool true)

/-- C5 counterexample scenario: Computed `c = p` (backing work id 0), Work 1
copies `t` into `p`, Work 2 reads `t` and then reads `c` twice.  During the
tick triggered by `t = 1`, Work 1 edits `p` first; Work 2's first read of
`c` then refreshes the cache, and its second read — with nothing edited in
between — re-invokes the handler again, because the getter's guard is the
edited-during-tick buffer, not the time of the last refresh. -/
def c5Setup : Except RErr Machine := do
  let m ← defineProp {} 1 "t" (.num 0)
  let m ← defineProp m 1 "p" (.num 0)
  let m ← defineComputed FUEL m 1 "c" (.readProp ["p"])
  let m ← defineWork FUEL m 1 [.writeProp ["p"] (.readProp ["t"])]
  defineWork FUEL m 1
    [.exprS (.readProp ["t"]), .exprS (.readComputed "c"), .exprS (.readComputed "c")]

def c5Run : Except RErr Machine := do
  let m ← c5Setup
  writePropM FUEL m 1 ["t"] (.num 1)

/-- C5 witness scenario: a store with Prop `a = 1` and Computed `c = a`
(backing work id 0), at rest after definition. -/
def c5LazySetup : Except RErr Machine := do
  let m ← defineProp {} 1 "a" (.num 1)
  defineComputed FUEL m 1 "c" (.readProp ["a"])

def c5wm : Machine := okD c5LazySetup

def c5ReadRes : Machine × Value :=
  match readComputedM 50 c5wm 1 "c" with
  | .ok r => r
  | .error _ => ({}, .undefined)

/-- C6 scenario: store 1 owns Prop `x`; store 2 links `y` to it via
`defineSharedProp` (copy work id 0, registered on store 1); store 2 has a
Work (id 1) reading `y`. -/
def c6Setup : Except RErr Machine := do
  let m ← defineProp {} 1 "x" (.num 0)
  let m ← defineSharedProp FUEL m 2 1 "y" "x"
  defineWork FUEL m 2 [.exprS (.readProp ["y"])]

def c6Run : Except RErr Machine := do
  let m ← c6Setup
  writePropM FUEL m 1 ["x"] (.num 5)

def c6m : Machine := okD c6Setup

/-- C8 scenario: Prop `a = 1`, Computed `c = a` — afterwards the computed
cache holds `1`. -/
def c8Setup : Except RErr Machine := do
  let m ← defineProp {} 1 "a" (.num 1)
  defineComputed FUEL m 1 "c" (.readProp ["a"])

def c8m : Machine := okD c8Setup

/-- C9 scenario: Prop `o = {a: 1}`, Work (id 0) reading `o` (so its declared
set is exactly `[["o"]]`). -/
def c9Setup : Except RErr Machine := do
  let m ← defineProp {} 1 "o" (.obj [("a", .num 1)])
  defineWork FUEL m 1 [.exprS (.readProp ["o"])]

/-- Assigning a previously-absent key: the mutate callback fires with the
empty suffix, so the edit lands on the parent path `["o"]`. -/
def c9NewKey : Except RErr Machine := do
  let m ← c9Setup
  writePropM FUEL m 1 ["o", "b"] (.num 2)

/-- Assigning the identical value to an existing key: no callback at all. -/
def c9SameVal : Except RErr Machine := do
  let m ← c9Setup
  writePropM FUEL m 1 ["o", "a"] (.num 1)

/-- C10 scenario: store 1's `x` linked to store 2's `y` (copy work id 0 on
store 1), then the target store 2 is destroyed. -/
def c10Setup : Except RErr Machine := do
  let m ← defineProp {} 1 "x" (.num 0)
  defineSharedProp FUEL m 2 1 "y" "x"

def c10m : Machine := okD c10Setup

def c10Destroyed : Machine := destroy c10m 2

def c10AfterEdit : Except RErr Machine := writePropM FUEL c10Destroyed 1 ["x"] (.num 7)

def c10AfterAccess : Except RErr (Machine × Value) := readPropM FUEL c10Destroyed 1 ["x"]

/-- C7 witness scenario: one store with Prop `a = 1` and Computed `c = a`. -/
def c7m : Machine := c8m

theorem count_eq_zero_of_not_mem' {α : Type} [BEq α] [LawfulBEq α] (a : α) (l : List α)
    (h : a ∉ l) : l.count a = 0 := by
  induction l with
  | nil => rfl
  | cons b bs ih =>
    have h1 : a ∉ bs := fun hm => h (List.mem_cons_of_mem _ hm)
    have h2 : ¬((b == a) = true) := fun hbeq => h (by simp [eq_of_beq hbeq])
    rw [List.count_cons, ih h1, if_neg h2]

theorem count_eq_one_of_mem' {α : Type} [BEq α] [LawfulBEq α] (a : α) (l : List α)
    (hd : l.Nodup) (hm : a ∈ l) : l.count a = 1 := by
  induction l with
  | nil => cases hm
  | cons b bs ih =>
    rw [List.count_cons]
    rcases List.mem_cons.mp hm with h | hmm
    · subst h
      rw [count_eq_zero_of_not_mem' a bs (List.nodup_cons.mp hd).1]
      simp
    · have hba : ¬((b == a) = true) := by
        intro hbeq
        have hba2 := eq_of_beq hbeq
        subst hba2
        exact (List.nodup_cons.mp hd).1 hmm
      rw [ih (List.nodup_cons.mp hd).2 hmm, if_neg hba]

def c1wWork : RWork := ⟨5, .prog [], [["a"], ["b"]]⟩

def c1wWorks : List RWork := [c1wWork]

/-- C1: invalidation is by exact path match.  In the reversed-dependency
trie rebuilt for a tick pass, the Works list at an edited (nonempty) path
`p` contains a registered Work exactly once when `p` is structurally equal
to a member of its last-declared dependency set, and not at all otherwise —
so the pass re-dispatches such a Work exactly once per edit of `p` and
never re-dispatches a Work lacking `p`.  Concretely: for Prop
`list = [1,2,3]` and a Work reading `list[0]` (declared set
`[["list"], ["list","0"]]`), mutating `list[1]` leaves the Work at its
single definition-time run, while mutating `list[0]` runs it a second
time. -/
theorem claim_C1 (works : List RWork) (w : RWork) (p : PropPath)
    (hmem : w ∈ works) (hids : (works.map RWork.id).Nodup)
    (hdeps : w.deps.Nodup) (hp : p ≠ []) :
    (recursiveGet (getReversedWorksDependencies works) p).count w.id
      = (if p ∈ w.deps then 1 else 0) ∧
    c1Setup.map (fun m => (getStore m 1).works.map RWork.deps)
      = .ok [[["list"], ["list", "0"]]] ∧
    c1AfterOther.map (fun m => countInvokes 0 m.log) = .ok 1 ∧
    c1AfterZero.map (fun m => countInvokes 0 m.log) = .ok 2 := by
  refine ⟨?_, rfl, rfl, rfl⟩
  rw [count_getReversed works w p hmem hids hp]
  by_cases hm : p ∈ w.deps
  · rw [if_pos hm]
    exact count_eq_one_of_mem' p w.deps hdeps hm
  · rw [if_neg hm]
    exact count_eq_zero_of_not_mem' p w.deps hm

theorem claim_C1_witness :
    c1wWork ∈ c1wWorks ∧
    (recursiveGet (getReversedWorksDependencies c1wWorks) ["a"]).count c1wWork.id = 1 := by
  refine ⟨List.Mem.head _, ?_⟩
  have h := (claim_C1 c1wWorks c1wWork ["a"] (List.Mem.head _) (by decide) (by decide)
    (by decide)).1
  rw [h]
  decide

/-- C2: with Props `{red: false, blue: false}`, Computed
`multicolor = red && blue` and a Work emitting `"RAINBOW"` when
`multicolor` is truthy, setting `red = true` emits nothing, and the
subsequent `blue = true` makes the whole history contain exactly one
emission of `"RAINBOW"` — so the single emission is a consequence of the
second assignment. -/
theorem claim_C2 :
    c2AfterRed.map (fun m => emittedEvents m.log) = .ok [] ∧
    c2AfterBlue.map (fun m => emittedEvents m.log) = .ok ["RAINBOW"] :=
  ⟨rfl, rfl⟩

/-- C3: self-write exclusion.  The dependency set computed at the end of a
dispatch (accessed minus edited) never contains a path structurally present
in the paths the Work itself edited during that execution; consequently,
when every registered Work carrying the given id stores such a set, the
reversed-dependency trie yields no dispatch of that id for an edit of the
self-written path. -/
theorem claim_C3 (accessedProps editedProps : List PropPath) (works : List RWork)
    (wid : Nat) (p : PropPath)
    (hdeps : ∀ w ∈ works, w.id = wid → w.deps = computeDeps accessedProps editedProps)
    (hp : propPathExistsIn p editedProps = true) :
    propPathExistsIn p (computeDeps accessedProps editedProps) = false ∧
    (recursiveGet (getReversedWorksDependencies works) p).count wid = 0 := by
  have hpe : p ∈ editedProps := (propPathExistsIn_iff _ _).mp hp
  have hnot : p ∉ computeDeps accessedProps editedProps := by
    intro hmem
    exact computeDeps_not_mem_edited _ _ _ hmem hpe
  constructor
  · exact (propPathExistsIn_eq_false_iff _ _).mpr hnot
  · cases hpn : p with
    | nil =>
      simp [recursiveGet]
    | cons k rest =>
      rw [← hpn]
      unfold getReversedWorksDependencies
      rw [count_foldl_works works [] wid p (by rw [hpn]; simp), recursiveGet_nil_struct]
      simp only [List.count_nil, Nat.zero_add]
      apply List.sum_eq_zero
      intro x hx
      obtain ⟨w', hw', rfl⟩ := List.mem_map.mp hx
      by_cases hid : w'.id = wid
      · rw [if_pos hid, hdeps w' hw' hid]
        exact count_eq_zero_of_not_mem' p _ hnot
      · rw [if_neg hid]

def c3wAccessed : List PropPath := [["a"], ["b"]]

def c3wEdited : List PropPath := [["b"]]

def c3wWork : RWork := ⟨3, .prog [], computeDeps c3wAccessed c3wEdited⟩

theorem claim_C3_witness :
    propPathExistsIn ["b"] c3wEdited = true ∧
    propPathExistsIn ["b"] (computeDeps c3wAccessed c3wEdited) = false ∧
    (recursiveGet (getReversedWorksDependencies [c3wWork]) ["b"]).count 3 = 0 := by
  have h := claim_C3 c3wAccessed c3wEdited [c3wWork] 3 ["b"]
    (by
      intro w hw hid
      rw [List.mem_singleton.mp hw]
      rfl)
    (by decide)
  exact ⟨by decide, h.1, h.2⟩

/-- C4: cycle detection against the fixed threshold 20.  The stack check
trips exactly when some Work occurs more than 20 times in the
successive-execution stack; the stabilizing feedback pair (each Work runs 7
times) completes normally, settles at `p = q = 5` and ends with the stack
cleared, while the non-stabilizing pair makes the tick abort by throwing
the `'Infinite loop detected'` error synchronously to the write that
triggered it. -/
theorem claim_C4 :
    (∀ stack : List Nat, checkLoopInStack stack = true ↔ ∃ w ∈ stack, 20 < stack.count w) ∧
    isOkE c4stableRun = true ∧
    c4stableRun.map (fun m =>
      (alGet (getStore m 1).props "p", alGet (getStore m 1).props "q",
        countInvokes 0 m.log, countInvokes 1 m.log, (getStore m 1).successiveStack))
      = .ok (some (.num 5), some (.num 5), 7, 7, []) ∧
    c4loopRun = .error .infiniteLoop :=
  ⟨checkLoopInStack_iff, rfl, rfl, rfl⟩

/-- C5 counterexample: in a reachable run, the Computed's backing handler
(Work 0) is invoked twice in a row with no `_propEdited` call anywhere in
between — the second read happens at a moment when no dependency path was
edited since the Computed's last refresh, yet the handler is re-invoked,
because the getter's guard is the edited-during-tick buffer rather than
the time of the last refresh. -/
theorem claim_C5_counterexample :
    c5Run.map (fun m => hasRedundantInvoke 0 m.log false) = .ok true :=
  rfl

/-- C5 (amended): Computed laziness is guarded by the edited-during-tick
buffer: reading a Computed at a moment when none of its currently-declared
dependency paths is structurally present in the store's edited-during-tick
buffer returns the cached value and leaves the log unchanged (the handler
is not re-invoked). -/
theorem claim_C5 (fuel : Nat) (m : Machine) (sid : Nat) (name : PropKey)
    (wid : Nat) (w : RWork)
    (hw : alGet (getStore m sid).computedWorks name = some wid)
    (hfind : findWork (getStore m sid).works wid = some w)
    (hlazy : w.deps.filter (fun d => propPathExistsIn d (getStore m sid).editedTick) = [])
    (m' : Machine) (v : Value)
    (hrun : readComputedM (fuel + 1) m sid name = .ok (m', v)) :
    v = (alGet (getStore m sid).computeds name).getD .undefined ∧ m'.log = m.log := by
  unfold readComputedM at hrun
  rw [interp_succ] at hrun
  have hrun2 : (match alGet (getStore m sid).computedWorks name with
      | none => Except.ok ((m, Value.undefined) : Machine × Value)
      | some wid2 =>
        match findWork (getStore m sid).works wid2 with
        | none =>
          Except.ok ((m, (alGet (getStore m sid).computeds name).getD Value.undefined) :
            Machine × Value)
        | some w2 => do
          let r1 ←
            if (w2.deps.filter (fun d =>
                propPathExistsIn d (getStore m sid).editedTick)).isEmpty
            then pure (m, Value.undefined)
            else interp fuel (Op.opRunHandler m sid wid2 w2.handler)
          let r2 ← interp fuel (Op.opGetDeepList r1.1 sid w2.deps)
          Except.ok (r2.1, (alGet (getStore r2.1 sid).computeds name).getD Value.undefined))
      = .ok (m', v) := hrun
  rw [hw] at hrun2
  have hrun3 : (match findWork (getStore m sid).works wid with
      | none =>
        Except.ok ((m, (alGet (getStore m sid).computeds name).getD Value.undefined) :
          Machine × Value)
      | some w2 => do
        let r1 ←
          if (w2.deps.filter (fun d =>
              propPathExistsIn d (getStore m sid).editedTick)).isEmpty
          then pure (m, Value.undefined)
          else interp fuel (Op.opRunHandler m sid wid w2.handler)
        let r2 ← interp fuel (Op.opGetDeepList r1.1 sid w2.deps)
        Except.ok (r2.1, (alGet (getStore r2.1 sid).computeds name).getD Value.undefined))
      = .ok (m', v) := hrun2
  rw [hfind] at hrun3
  have hrun4 : (do
      let r1 ←
        if (w.deps.filter (fun d =>
            propPathExistsIn d (getStore m sid).editedTick)).isEmpty
        then pure ((m, Value.undefined) : Machine × Value)
        else interp fuel (Op.opRunHandler m sid wid w.handler)
      let r2 ← interp fuel (Op.opGetDeepList r1.1 sid w.deps)
      Except.ok (r2.1, (alGet (getStore r2.1 sid).computeds name).getD Value.undefined))
      = .ok (m', v) := hrun3
  rw [hlazy] at hrun4
  have hrun5 : (do
      let r2 ← interp fuel (Op.opGetDeepList m sid w.deps)
      Except.ok ((r2.1, (alGet (getStore r2.1 sid).computeds name).getD Value.undefined) :
        Machine × Value))
      = .ok (m', v) := hrun4
  obtain ⟨r2, h2, h3⟩ := except_bind_ok _ _ _ hrun5
  rw [Except.ok.injEq, Prod.mk.injEq] at h3
  have keeps := interp_readOnly_keeps fuel (.opGetDeepList m sid w.deps) (by trivial) r2 h2
  simp only [Op.machine] at keeps
  constructor
  · rw [← h3.2, (keeps.2 sid).2]
  · rw [← h3.1, keeps.1]

theorem claim_C5_witness :
    alGet (getStore c5wm 1).computedWorks "c" = some 0 ∧
    findWork (getStore c5wm 1).works 0
      = some ⟨0, .computeStore "c" (.readProp ["a"]), [["a"]]⟩ ∧
    c5ReadRes.2 = (alGet (getStore c5wm 1).computeds "c").getD .undefined ∧
    c5ReadRes.1.log = c5wm.log := by
  refine ⟨rfl, rfl, ?_⟩
  exact claim_C5 49 c5wm 1 "c" 0 ⟨0, .computeStore "c" (.readProp ["a"]), [["a"]]⟩
    rfl rfl rfl c5ReadRes.1 c5ReadRes.2 rfl

/-- C6: cross-store propagation.  Writing `5` to the source store's linked
Prop `x` makes the target store's `y` observably `5` and re-runs the target
Work depending on `y` (a second invocation beyond its definition-time run);
and any direct assignment through a `defineSharedProp`-installed accessor
throws, in every machine state and for every value. -/
theorem claim_C6 (fuel : Nat) (m : Machine) (sid : Nat) (name : PropKey) (v : Value)
    (h : alGet (getStore m sid).accessors name = some true) :
    writePropM (fuel + 1) m sid [name] v = .error .externalPropNotMutable ∧
    c6Run.map (fun mm => alGet (getStore mm 2).props "y") = .ok (some (.num 5)) ∧
    c6Run.map (fun mm => countInvokes 1 mm.log) = .ok 2 := by
  refine ⟨?_, rfl, rfl⟩
  unfold writePropM
  rw [interp_succ]
  have hstep : interpStep (interp fuel) (.opWriteProp m sid [name] v)
      = (match alGet (getStore m sid).accessors name with
        | none => Except.ok ((m, Value.undefined) : Machine × Value)
        | some isShared =>
          if isShared then Except.error RErr.externalPropNotMutable
          else if jsStrictEq v ((alGet (getStore m sid).props name).getD Value.undefined) then
            Except.ok ((m, Value.undefined) : Machine × Value)
          else do
            let m1 := updStore m sid (fun s => { s with props := alSet s.props name v })
            interp fuel (Op.opPropEdited m1 sid [name])) := rfl
  rw [hstep, h]
  rfl

theorem claim_C6_witness :
    alGet (getStore c6m 2).accessors "y" = some true ∧
    writePropM 50 c6m 2 ["y"] (.num 9) = .error .externalPropNotMutable :=
  ⟨rfl, (claim_C6 49 c6m 2 "y" (.num 9) rfl).1⟩

/-- C7: duplicate definition and illegal computed mutation.  After a
successful `defineProp` of a (non-undefined) value under some name,
defining the same name again throws `'Prop already defined'`; and any
assignment to an entry of the computed namespace that carries a computed
accessor throws `'Setting a computed directly is not allowed'`. -/
theorem claim_C7 (m m₂ : Machine) (sid : Nat) (name : PropKey) (v v' : Value)
    (hv : v.isUndefined = false) (hdef : defineProp m sid name v = .ok m₂)
    (cm : Machine) (csid : Nat) (cname : PropKey) (cwid : Nat)
    (hc : alGet (getStore cm csid).computedWorks cname = some cwid) :
    defineProp m₂ sid name v' = .error .propAlreadyDefined ∧
    writeComputedM cm csid cname = .error .settingComputedNotAllowed := by
  constructor
  · unfold defineProp at hdef ⊢
    split at hdef
    case isTrue hcond =>
      rw [Except.ok.injEq] at hdef
      subst hdef
      unfold updStore
      rw [getStore_setStore_same]
      simp [alGet_alSet_same, hv]
    case isFalse hcond =>
      simp at hdef
  · unfold writeComputedM
    rw [hc]

theorem claim_C7_witness :
    Value.isUndefined (.num 1) = false ∧
    defineProp ({} : Machine) 3 "z" (.num 1)
      = .ok (okD (defineProp ({} : Machine) 3 "z" (.num 1))) ∧
    alGet (getStore c7m 1).computedWorks "c" = some 0 ∧
    defineProp (okD (defineProp ({} : Machine) 3 "z" (.num 1))) 3 "z" (.num 2)
      = .error .propAlreadyDefined ∧
    writeComputedM c7m 1 "c" = .error .settingComputedNotAllowed := by
  refine ⟨rfl, rfl, rfl, ?_⟩
  exact claim_C7 {} (okD (defineProp ({} : Machine) 3 "z" (.num 1))) 3 "z" (.num 1) (.num 2)
    rfl rfl c7m 1 "c" 0 rfl

/-- C8 counterexample: after `destroy`, the cached Computed value is still
present in the internal `_computeds` record (here `c = 1` survives), so it
is false that no cached Computed value remains. -/
theorem claim_C8_counterexample :
    isOkE c8Setup = true ∧
    alGet (getStore (destroy c8m 1) 1).computeds "c" = some (.num 1) :=
  ⟨rfl, rfl⟩

/-- C8 (amended): `destroy` clears the Prop values, the Work registry, the
successive-execution stack and all three buffers, and detaches every event
listener the store had recorded; cached Computed values (with the computed
accessors) and the cross-store link table remain untouched. -/
theorem claim_C8 (m : Machine) (sid : Nat) :
    (getStore (destroy m sid) sid).props = [] ∧
    (getStore (destroy m sid) sid).works = [] ∧
    (getStore (destroy m sid) sid).successiveStack = [] ∧
    (getStore (destroy m sid) sid).editedTick = [] ∧
    (getStore (destroy m sid) sid).editedWork = [] ∧
    (getStore (destroy m sid) sid).accessedWork = [] ∧
    (getStore (destroy m sid) sid).computeds = (getStore m sid).computeds ∧
    (getStore (destroy m sid) sid).computedWorks = (getStore m sid).computedWorks ∧
    (getStore (destroy m sid) sid).links = (getStore m sid).links ∧
    (destroy m sid).attached
      = m.attached.filter (fun l => !((getStore m sid).eventListeners.contains l)) := by
  have hg : getStore (destroy m sid) sid
      = { getStore m sid with
          props := []
          works := []
          successiveStack := []
          editedTick := []
          editedWork := []
          accessedWork := [] } := by
    unfold destroy getStore
    simp [alGet_alSet_same]
  rw [hg]
  exact ⟨rfl, rfl, rfl, rfl, rfl, rfl, rfl, rfl, rfl, rfl⟩

/-- C9: the proxy `set` trap.  Assigning a value strictly different from
the stored one produces a mutate callback — with the assigned key as
suffix when the key was already an own property, and with the empty suffix
(the parent container's path) when it was newly defined; assigning a
strictly equal value produces no callback.  Concretely: on Prop
`o = {a: 1}` with a Work reading exactly `["o"]`, assigning the new key
`o.b` records one edit at `["o"]` and re-runs the Work, while re-assigning
`o.a = 1` records no edit at all and runs nothing. -/
theorem claim_C9 (fields : List (PropKey × Value)) (k : PropKey) (v : Value) :
    (proxyAssign (.obj fields) [k] v
      = if jsStrictEq v ((alGet fields k).getD .undefined) then ([], none)
        else ([], some (.obj (alSet fields k v),
          if (alGet fields k).isSome then [k] else []))) ∧
    c9NewKey.map (fun m => (countEdits 1 ["o"] m.log, countInvokes 0 m.log, totalEdits m.log))
      = .ok (1, 2, 1) ∧
    c9SameVal.map (fun m => (totalEdits m.log, countInvokes 0 m.log)) = .ok (0, 1) := by
  refine ⟨?_, rfl, rfl⟩
  by_cases h1 : jsStrictEq v ((alGet fields k).getD .undefined) = true
  · rw [if_pos h1]
    simp [proxyAssign, h1]
  · rw [if_neg h1]
    by_cases h2 : (alGet fields k).isSome = true
    · rw [if_pos h2]
      simp [proxyAssign, h1, h2]
    · rw [if_neg h2]
      simp [proxyAssign, h1, h2]

/-- C10: destroying the target store does not sever cross-store links on
the source store.  After `destroy` of store 2, store 1's link table still
references store 2, the copy Work is still registered on store 1 (with its
declared dependency on `["x"]`); an edit of `x` on store 1 is still
forwarded into the destroyed store's machinery (the copy Work repopulates
its internal slot with `7` and a `_propEdited` for `(2, ["y"])` is
recorded), and an access of `x` still lands in the destroyed store's read
buffer as `["y"]`. -/
theorem claim_C10 :
    isOkE c10Setup = true ∧
    (getStore c10Destroyed 1).links = [("x", [(2, "y")])] ∧
    (getStore c10Destroyed 1).works.map (fun w => (w.id, w.deps)) = [(0, [["x"]])] ∧
    (getStore c10Destroyed 2).props = [] ∧
    (getStore c10Destroyed 2).works = [] ∧
    c10AfterEdit.map (fun m => alGet (getStore m 2).props "y") = .ok (some (.num 7)) ∧
    c10AfterEdit.map (fun m => countEdits 2 ["y"] m.log) = .ok 1 ∧
    c10AfterAccess.map (fun r => propPathExistsIn ["y"] (getStore r.1 2).accessedWork)
      = .ok true :=
  ⟨rfl, rfl, rfl, rfl, rfl, rfl, rfl, rfl⟩
